/-
Verification of the Salvage synchronization utility.

Shallow embedding of the repository's Python sources:
  * salvage.py        : Start, GetLocalFiles, GetRemoteFiles, CompareFiles, Notify
  * services/git.py   : Authenticate, GetRepository, SaveFile, DeleteFile
  * services/portainer.py : Portainer.GetStack

External collaborators (the GitHub REST client, the HTTP transport, the local
filesystem and the Discord webhook) are modelled as explicit inputs: function
fields on a repository value, abstract request outcomes, and an abstract
filesystem listing.  Python dictionaries are modelled as association lists in
insertion order with unique keys; `dict.get` is `dget`, `d[k] = v` is `dinsert`.
Python truthiness of `Optional[str]` values is modelled by `truthy`.
-/
import Mathlib

set_option autoImplicit false

namespace Salvage

/-! ### Python string primitives

Single-character `str.split`, `str.startswith`, `str.replace` for
one-character patterns, and `"/"`-joining, modelled over character lists. -/

/-- Python truthiness of an `Optional[str]` value: `None` and `""` are falsy. -/
def truthy : Option String → Bool
  | none => false
  | some s => !(s == "")

/-- Boolean list-prefix test used to model Python `str.startswith`. -/
def isPref : List Char → List Char → Bool
  | [], _ => true
  | _ :: _, [] => false
  | a :: as, b :: bs => a = b && isPref as bs

/-- Python `s.startswith(pre)`. -/
def pyStartswith (s pre : String) : Bool :=
  isPref pre.toList s.toList

/-- Python `s.split(c)` for a one-character separator, over character lists. -/
def splitChars (c : Char) : List Char → List (List Char)
  | [] => [[]]
  | x :: xs =>
    let r := splitChars c xs
    if x = c then [] :: r
    else (x :: r.headI) :: r.tail

/-- Python `s.split(c)` for a one-character separator. -/
def pySplit (c : Char) (s : String) : List String :=
  (splitChars c s.toList).map (fun l => String.mk l)

/-- Python `s.replace("\\", "/")` (one-character pattern, hence a map). -/
def pyReplaceBackslash (s : String) : String :=
  String.mk (s.toList.map (fun ch => if ch = '\\' then '/' else ch))

/-- Slash-separated concatenation of path segments (`str(Path)` rendering). -/
def joinSegs : List String → String
  | [] => ""
  | [s] => s
  | s :: rest => s ++ "/" ++ joinSegs rest

/-- The first two lines of `GetRemoteFiles`' directory normalisation:
`if projects_directory.startswith("./"): projects_directory = projects_directory[2:]`. -/
def stripDotSlash (s : String) : String :=
  if pyStartswith s "./" then String.mk (s.toList.drop 2) else s

/-! ### Python dictionaries as insertion-ordered association lists -/

/-- Python `d.get(k)`: first binding of `k`, if any. -/
def dget {α : Type} (k : String) : List (String × α) → Option α
  | [] => none
  | (k', v) :: rest => if k' = k then some v else dget k rest

/-- Python `d[k] = v`: replace an existing binding in place, else append. -/
def dinsert {α : Type} (k : String) (v : α) : List (String × α) → List (String × α)
  | [] => [(k, v)]
  | (k', v') :: rest => if k' = k then (k, v) :: rest else (k', v') :: dinsert k v rest

/-- Removal of the first binding of a key (used only in theorem statements). -/
def derase {α : Type} (k : String) : List (String × α) → List (String × α)
  | [] => []
  | (k', v) :: rest => if k' = k then rest else (k', v) :: derase k rest

/-- The mapping's key sequence. -/
def keys {α : Type} (l : List (String × α)) : List String :=
  l.map Prod.fst

/-- Occurrence count of an element in a list (used only in theorem statements). -/
def countOcc {α : Type} [DecidableEq α] (a : α) : List α → Nat
  | [] => 0
  | x :: xs => (if x = a then 1 else 0) + countOcc a xs

/-! ### services/git.py -/

/-- Model of the PyGithub result dictionary of `create_file` / `update_file` /
`delete_file`: `commit` is `some url` exactly when `result["commit"]` is a
`Commit` object carrying `html_url = url`. -/
structure CommitResult where
  commit : Option String
  deriving DecidableEq, Repr

/-- Model of a PyGithub `Repository` value: its `private` flag, its full name,
and its three write endpoints.  Each endpoint takes the positional arguments of
the corresponding PyGithub call; `Except.error` models the call raising. -/
structure Repo where
  isPrivate : Bool
  fullName : String
  createFile : String → String → String → Except String CommitResult
  updateFile : String → String → String → String → Except String CommitResult
  deleteFile : String → String → String → Except String CommitResult

/-- A user object returned by `Github.get_user`. -/
inductive GitUser
  | authenticated (login : String)
  | named (login : String)
  deriving DecidableEq, Repr

/-- `Authenticate` (services/git.py): the GitHub client interaction is modelled
by its outcome, `Except.error` when the client raises.  A `NamedUser` raises a
`RuntimeError` inside the `try`, which the `except` turns into `None`. -/
def Authenticate (result : Except String GitUser) : Option String :=
  match result with
  | .error _ => none
  | .ok (.named _) => none
  | .ok (.authenticated login) => some login

/-- `GetRepository` (services/git.py): `user.get_repo(name)` is modelled by its
outcome; a raised lookup returns `None`, and a repository whose `private` flag
is false is refused (`return` after the critical log). -/
def GetRepository (lookup : Except String Repo) : Option Repo :=
  match lookup with
  | .error _ => none
  | .ok repo => if !repo.isPrivate then none else some repo

/-- The trailing `if (result) and (isinstance(result["commit"], Commit)):
return result["commit"].html_url` of `SaveFile` / `DeleteFile`. -/
def commitUrlOf (result : Except String CommitResult) : Option String :=
  match result with
  | .error _ => none
  | .ok r => r.commit

/-- `SaveFile` (services/git.py): on truthy `sha` call `repo.update_file`,
else `repo.create_file`; a raised call is caught and yields `None`. -/
def SaveFile (repo : Repo) (filepath content : String) (sha : Option String) :
    Option String :=
  if truthy sha then
    commitUrlOf (repo.updateFile filepath ("Update " ++ filepath) content (sha.getD ""))
  else
    commitUrlOf (repo.createFile filepath ("Create " ++ filepath) content)

/-- `DeleteFile` (services/git.py): `repo.delete_file`, raised calls caught. -/
def DeleteFile (repo : Repo) (filepath sha : String) : Option String :=
  commitUrlOf (repo.deleteFile filepath ("Delete " ++ filepath) sha)

/-! ### salvage.py: records, events, and the reconciler `CompareFiles` -/

/-- A record built by `GetLocalFiles` (`results[f"{project}/{filename}"]`). -/
structure LocalFile where
  project : String
  filename : String
  filepath : String
  content : String
  deriving DecidableEq, Repr

/-- A record built by `GetRemoteFiles`; `content` holds the text payload after
the base64 decode (decoding is an external collaborator), `sha` the blob hash. -/
structure RemoteFile where
  project : String
  filename : String
  filepath : String
  content : String
  sha : String
  deriving DecidableEq, Repr

/-- One write issued to the persistence sink: `SaveFile(repo, path, content,
sha?)` or `DeleteFile(repo, path, sha)`. -/
inductive SinkCall
  | save (filepath content : String) (sha : Option String)
  | delete (filepath sha : String)
  deriving DecidableEq, Repr

/-- The three `Notify` actions. -/
inductive Action
  | Created
  | Modified
  | Deleted
  deriving DecidableEq, Repr

/-- One `Notify(record, action)` call: the record (with its attached `url`)
and the action string. -/
structure ChangeEvent where
  action : Action
  project : String
  filename : String
  filepath : String
  content : String
  url : String
  deriving DecidableEq, Repr

/-- The persistence sink as seen by `CompareFiles`: the two writer functions
it calls, already partially applied to the repository. -/
structure Sink where
  save : String → String → Option String → Option String
  delete : String → String → Option String

/-- The sink `CompareFiles` actually receives in `Start`. -/
def repoSink (repo : Repo) : Sink where
  save := fun p c sha => SaveFile repo p c sha
  delete := fun p sha => DeleteFile repo p sha

/-- Event payload for a local record (`new` with `new["url"] = url`). -/
def mkEventL (a : Action) (f : LocalFile) (url : String) : ChangeEvent :=
  ⟨a, f.project, f.filename, f.filepath, f.content, url⟩

/-- Event payload for a remote record (`remote[file]` with attached `url`). -/
def mkEventR (a : Action) (f : RemoteFile) (url : String) : ChangeEvent :=
  ⟨a, f.project, f.filename, f.filepath, f.content, url⟩

/-- One iteration of `CompareFiles`' first loop (`for file in local`), for key
`k` with record `new`: missing counterpart → create; equal content → nothing;
differing content → update with the snapshot's `sha`.  Returns the sink calls
made and the events emitted, in order. -/
def pass1Step (sink : Sink) (remote : List (String × RemoteFile)) (k : String)
    (new : LocalFile) : List SinkCall × List ChangeEvent :=
  match dget k remote with
  | none =>
    let url := sink.save new.filepath new.content none
    ([SinkCall.save new.filepath new.content none],
      if truthy url then [mkEventL .Created new (url.getD "")] else [])
  | some old =>
    if new.content = old.content then ([], [])
    else
      let url := sink.save new.filepath new.content (some old.sha)
      ([SinkCall.save new.filepath new.content (some old.sha)],
        if truthy url then [mkEventL .Modified new (url.getD "")] else [])

/-- One iteration of `CompareFiles`' second loop (`for file in remote`):
delete the snapshot record when `local.get(file)` is falsy. -/
def pass2Step (sink : Sink) (localm : List (String × LocalFile)) (k : String)
    (old : RemoteFile) : List SinkCall × List ChangeEvent :=
  match dget k localm with
  | some _ => ([], [])
  | none =>
    let url := sink.delete old.filepath old.sha
    ([SinkCall.delete old.filepath old.sha],
      if truthy url then [mkEventR .Deleted old (url.getD "")] else [])

/-- The whole first loop of `CompareFiles`, in iteration order. -/
def pass1 (sink : Sink) (remote : List (String × RemoteFile)) :
    List (String × LocalFile) → List SinkCall × List ChangeEvent
  | [] => ([], [])
  | (k, new) :: rest =>
    let s := pass1Step sink remote k new
    let r := pass1 sink remote rest
    (s.1 ++ r.1, s.2 ++ r.2)

/-- The whole second loop of `CompareFiles`, in iteration order. -/
def pass2 (sink : Sink) (localm : List (String × LocalFile)) :
    List (String × RemoteFile) → List SinkCall × List ChangeEvent
  | [] => ([], [])
  | (k, old) :: rest =>
    let s := pass2Step sink localm k old
    let r := pass2 sink localm rest
    (s.1 ++ r.1, s.2 ++ r.2)

/-- `CompareFiles` (salvage.py): the create/update loop over `local` followed
by the delete loop over `remote`; result is the chronological list of sink
calls and the chronological list of emitted events. -/
def CompareFiles (sink : Sink) (localm : List (String × LocalFile))
    (remote : List (String × RemoteFile)) : List SinkCall × List ChangeEvent :=
  let p1 := pass1 sink remote localm
  let p2 := pass2 sink localm remote
  (p1.1 ++ p2.1, p1.2 ++ p2.2)

/-! ### salvage.py: the two readers -/

/-- One path produced by `directory.glob(pattern)`: its path segments relative
to the projects directory (nonempty for any globbed entry), whether it is a
directory, and its text content when read. -/
structure GlobEntry where
  relSegments : List String
  isDir : Bool
  content : String
  deriving DecidableEq, Repr

/-- The local filesystem as `GetLocalFiles` observes it: whether the projects
directory exists, and the concatenated glob results over all patterns, in
iteration order. -/
structure LocalFS where
  rootExists : Bool
  entries : List GlobEntry
  deriving DecidableEq, Repr

/-- `str(file).replace("\\", "/")` for a globbed file: the directory (as
normalised by `pathlib`, i.e. without a leading `./`) joined with the relative
segments.  -/
def localFilepath (dirName : String) (segs : List String) : String :=
  pyReplaceBackslash (stripDotSlash dirName ++ "/" ++ joinSegs segs)

/-- `GetLocalFiles` (salvage.py): empty mapping when the directory is missing;
otherwise each globbed non-directory entry is keyed by
`f"{project}/{filename}"` with `project = file.relative_to(dir).parts[0]` and
`filename = file.name`. -/
def GetLocalFiles (dirName : String) (fs : LocalFS) : List (String × LocalFile) :=
  if !fs.rootExists then []
  else
    fs.entries.foldl
      (fun results e =>
        if e.isDir then results
        else
          let project := e.relSegments.headD ""
          let filename := e.relSegments.getLast?.getD ""
          dinsert (project ++ "/" ++ filename)
            ⟨project, filename, localFilepath dirName e.relSegments, e.content⟩
            results)
      []

/-- A `ContentFile` as returned by `GetFiles`: repository path, base name,
decoded text payload (base64 decoding is an external collaborator) and blob
sha. -/
structure RepoFile where
  path : String
  name : String
  content : String
  sha : String
  deriving DecidableEq, Repr

/-- The body of `GetRemoteFiles`' loop over `files`: skip paths that do not
start with the normalised projects directory, otherwise key the record by
`f"{project}/{filename}"` with `project = file.path.split("/")[1]`.  A path
with no second segment makes the Python subscript raise `IndexError`, which
nothing catches: the whole read fails. -/
def remoteLoop (pd : String) : List RepoFile → List (String × RemoteFile) →
    Except String (List (String × RemoteFile))
  | [], acc => .ok acc
  | f :: rest, acc =>
    if !(pyStartswith f.path pd) then remoteLoop pd rest acc
    else
      match (pySplit '/' f.path)[1]? with
      | none => .error ("IndexError: " ++ f.path)
      | some project =>
        remoteLoop pd rest
          (dinsert (project ++ "/" ++ f.name)
            ⟨project, f.name, f.path, f.content, f.sha⟩ acc)

/-- `GetRemoteFiles` (salvage.py): strip a leading `./` from the configured
projects directory, then filter and key the repository's files. -/
def GetRemoteFiles (dirName : String) (files : List RepoFile) :
    Except String (List (String × RemoteFile)) :=
  remoteLoop (stripDotSlash dirName) files []

/-! ### services/portainer.py -/

/-- Outcome of the `httpx.get` call in `GetStack`: either the transport raised,
or a response with a status-error flag (`raise_for_status`) and the parsed
`StackFileContent` field. -/
inductive HttpResult
  | transportError (msg : String)
  | response (statusError : Bool) (stackFileContent : Option String)
  deriving DecidableEq, Repr

/-- `Portainer.GetStack` (services/portainer.py): every failure — transport
error, bad status, missing or falsy `StackFileContent` — is caught by the
`except`, logged, and turned into a bare `return` (None). -/
def GetStack (res : HttpResult) : Option String :=
  match res with
  | .transportError _ => none
  | .response statusError content =>
    if statusError then none
    else
      match content with
      | none => none
      | some c => if c = "" then none else some c

/-- Modelled from the spec: the spec's remote-API-backed read pass, in which
"a failure to read one file is a fatal error for the whole pass ...
(propagates)"; no caller of `GetStack` exists under the sources, so the
propagating behaviour the spec describes is modelled here for comparison with
the source's `GetStack`. -/
def GetStackSpecModel (res : HttpResult) : Except String String :=
  match res with
  | .transportError msg => .error msg
  | .response statusError content =>
    if statusError then .error "status error"
    else
      match content with
      | none => .error "Stack file content is null"
      | some c => if c = "" then .error "Stack file content is null" else .ok c

/-! ### salvage.py: `Start` -/

/-- The run's environment: the configured projects directory (after the
`environ.get` default), the local filesystem, the GitHub authentication and
repository-lookup outcomes, and the repository file listing from `GetFiles`. -/
structure Env where
  dirName : String
  fs : LocalFS
  authResult : Except String GitUser
  repoLookup : Except String Repo
  repoFiles : List RepoFile

/-- How a run ends. -/
inductive RunResult
  | exitNoUser
  | exitNoRepo
  | finished (localCount remoteCount : Nat)
      (calls : List SinkCall) (events : List ChangeEvent)
  deriving DecidableEq, Repr

/-- `Start` (salvage.py): read local files, authenticate, load the repository,
read remote files, reconcile.  An uncaught `IndexError` from `GetRemoteFiles`
propagates out of `Start` (`Except.error`). -/
def Start (env : Env) : Except String RunResult :=
  let localm := GetLocalFiles env.dirName env.fs
  match Authenticate env.authResult with
  | none => .ok .exitNoUser
  | some _login =>
    match GetRepository env.repoLookup with
    | none => .ok .exitNoRepo
    | some repo =>
      match GetRemoteFiles env.dirName env.repoFiles with
      | .error e => .error e
      | .ok remotem =>
        let t := CompareFiles (repoSink repo) localm remotem
        .ok (.finished localm.length remotem.length t.1 t.2)

/-! ### Association-list and counting lemmas -/

@[simp]
theorem dget_nil {α : Type} (k : String) : dget (α := α) k [] = none := rfl

@[simp]
theorem dget_cons {α : Type} (k k' : String) (v : α) (l : List (String × α)) :
    dget k ((k', v) :: l) = if k' = k then some v else dget k l := rfl

@[simp]
theorem keys_nil {α : Type} : keys (α := α) [] = [] := rfl

@[simp]
theorem keys_cons {α : Type} (k : String) (v : α) (l : List (String × α)) :
    keys ((k, v) :: l) = k :: keys l := rfl

theorem dget_isSome_of_mem {α : Type} {k : String} {v : α} {l : List (String × α)}
    (h : (k, v) ∈ l) : (dget k l).isSome := by
  induction l with
  | nil => simp at h
  | cons hd tl ih =>
    obtain ⟨k', v'⟩ := hd
    rcases List.mem_cons.mp h with h1 | h1
    · injection h1 with h1a h1b
      subst h1a
      simp
    · by_cases hk : k' = k
      · simp [hk]
      · simpa [hk] using ih h1

theorem mem_of_dget {α : Type} {k : String} {v : α} {l : List (String × α)}
    (h : dget k l = some v) : (k, v) ∈ l := by
  induction l with
  | nil => simp at h
  | cons hd tl ih =>
    obtain ⟨k', v'⟩ := hd
    by_cases hk : k' = k
    · subst hk
      simp at h
      subst h
      exact List.mem_cons_self _ _
    · simp [hk] at h
      exact List.mem_cons_of_mem _ (ih h)

theorem dget_derase_of_ne {α : Type} {k k' : String} {l : List (String × α)}
    (h : k' ≠ k) : dget k' (derase k l) = dget k' l := by
  induction l with
  | nil => rfl
  | cons hd tl ih =>
    obtain ⟨k'', v⟩ := hd
    by_cases hk : k'' = k
    · subst hk
      have : ¬(k'' = k') := fun he => h (he ▸ rfl)
      simp [derase, this]
    · by_cases hk2 : k'' = k'
      · subst hk2
        simp [derase, hk]
      · simp [derase, hk, hk2, ih]

theorem mem_derase_key_ne {α : Type} {k : String} {v : α} {l : List (String × α)}
    (hnd : (keys l).Nodup) (hmem : (k, v) ∈ l) :
    ∀ p ∈ derase k l, p.1 ≠ k := by
  induction l with
  | nil => simp at hmem
  | cons hd tl ih =>
    obtain ⟨k', v'⟩ := hd
    simp only [keys_cons, List.nodup_cons] at hnd
    by_cases hk : k' = k
    · subst hk
      intro p hp
      rw [derase, if_pos rfl] at hp
      intro hpk
      exact hnd.1 (hpk ▸ List.mem_map_of_mem Prod.fst hp)
    · rcases List.mem_cons.mp hmem with h1 | h1
      · injection h1 with h1a _
        exact absurd h1a.symm hk
      · intro p hp
        rw [derase, if_neg hk] at hp
        rcases List.mem_cons.mp hp with h2 | h2
        · subst h2
          exact hk
        · exact ih hnd.2 h1 p h2

@[simp]
theorem countOcc_nil {α : Type} [DecidableEq α] (a : α) : countOcc a [] = 0 := rfl

@[simp]
theorem countOcc_cons {α : Type} [DecidableEq α] (a x : α) (l : List α) :
    countOcc a (x :: l) = (if x = a then 1 else 0) + countOcc a l := rfl

theorem countOcc_append {α : Type} [DecidableEq α] (a : α) (l m : List α) :
    countOcc a (l ++ m) = countOcc a l + countOcc a m := by
  induction l with
  | nil => simp
  | cons x xs ih => simp [ih, Nat.add_assoc]

theorem countOcc_eq_zero_of_forall_ne {α : Type} [DecidableEq α] {a : α} {l : List α}
    (h : ∀ x ∈ l, x ≠ a) : countOcc a l = 0 := by
  induction l with
  | nil => rfl
  | cons x xs ih =>
    have hx : ¬(x = a) := h x (List.mem_cons_self _ _)
    simp [hx, ih (fun y hy => h y (List.mem_cons_of_mem _ hy))]

theorem countOcc_join_zero {β γ : Type} [DecidableEq γ] {F : β → List γ} {t : γ}
    {L : List β} (h : ∀ p ∈ L, ∀ x ∈ F p, x ≠ t) :
    countOcc t (L.map F).flatten = 0 := by
  induction L with
  | nil => rfl
  | cons p ps ih =>
    simp only [List.map_cons, List.flatten_cons]
    rw [countOcc_append]
    rw [countOcc_eq_zero_of_forall_ne (h p (List.mem_cons_self _ _)),
      ih (fun q hq => h q (List.mem_cons_of_mem _ hq))]

theorem countOcc_join_single {β γ : Type} [DecidableEq β] [DecidableEq γ]
    (F : β → List γ) (fp : β → String) (t : γ) (tfp : String)
    (hmemF : ∀ p x, x ∈ F p → fp p ≠ tfp → x ≠ t)
    {L : List β} (hnd : (L.map fp).Nodup)
    {p0 : β} (hmem : p0 ∈ L) (hfp0 : fp p0 = tfp)
    (hcount : countOcc t (F p0) = 1) :
    countOcc t (L.map F).flatten = 1 := by
  induction L with
  | nil => simp at hmem
  | cons p ps ih =>
    simp only [List.map_cons, List.nodup_cons] at hnd
    simp only [List.map_cons, List.flatten_cons]
    rw [countOcc_append]
    rcases List.mem_cons.mp hmem with h1 | h1
    · subst h1
      rw [hcount]
      rw [countOcc_join_zero (fun q hq x hx => hmemF q x hx (by
        intro he
        exact hnd.1 (he.trans hfp0.symm ▸ List.mem_map_of_mem fp hq)))]
    · have hne : fp p ≠ tfp := by
        intro he
        exact hnd.1 (by rw [he, ← hfp0]; exact List.mem_map_of_mem fp h1)
      rw [countOcc_eq_zero_of_forall_ne (fun x hx => hmemF p x hx hne)]
      rw [ih hnd.2 h1]

/-! ### Structure of the two reconciliation passes -/

@[simp]
theorem pass1_nil (sink : Sink) (remote : List (String × RemoteFile)) :
    pass1 sink remote [] = ([], []) := rfl

@[simp]
theorem pass1_cons (sink : Sink) (remote : List (String × RemoteFile)) (k : String)
    (new : LocalFile) (rest : List (String × LocalFile)) :
    pass1 sink remote ((k, new) :: rest) =
      ((pass1Step sink remote k new).1 ++ (pass1 sink remote rest).1,
       (pass1Step sink remote k new).2 ++ (pass1 sink remote rest).2) := rfl

@[simp]
theorem pass2_nil (sink : Sink) (localm : List (String × LocalFile)) :
    pass2 sink localm [] = ([], []) := rfl

@[simp]
theorem pass2_cons (sink : Sink) (localm : List (String × LocalFile)) (k : String)
    (old : RemoteFile) (rest : List (String × RemoteFile)) :
    pass2 sink localm ((k, old) :: rest) =
      ((pass2Step sink localm k old).1 ++ (pass2 sink localm rest).1,
       (pass2Step sink localm k old).2 ++ (pass2 sink localm rest).2) := rfl

theorem pass1_calls_flatten (sink : Sink) (remote : List (String × RemoteFile))
    (L : List (String × LocalFile)) :
    (pass1 sink remote L).1 =
      (L.map (fun p => (pass1Step sink remote p.1 p.2).1)).flatten := by
  induction L with
  | nil => rfl
  | cons hd tl ih =>
    obtain ⟨k, new⟩ := hd
    simp [ih]

theorem pass1_events_flatten (sink : Sink) (remote : List (String × RemoteFile))
    (L : List (String × LocalFile)) :
    (pass1 sink remote L).2 =
      (L.map (fun p => (pass1Step sink remote p.1 p.2).2)).flatten := by
  induction L with
  | nil => rfl
  | cons hd tl ih =>
    obtain ⟨k, new⟩ := hd
    simp [ih]

theorem pass2_calls_flatten (sink : Sink) (localm : List (String × LocalFile))
    (R : List (String × RemoteFile)) :
    (pass2 sink localm R).1 =
      (R.map (fun p => (pass2Step sink localm p.1 p.2).1)).flatten := by
  induction R with
  | nil => rfl
  | cons hd tl ih =>
    obtain ⟨k, old⟩ := hd
    simp [ih]

theorem pass2_events_flatten (sink : Sink) (localm : List (String × LocalFile))
    (R : List (String × RemoteFile)) :
    (pass2 sink localm R).2 =
      (R.map (fun p => (pass2Step sink localm p.1 p.2).2)).flatten := by
  induction R with
  | nil => rfl
  | cons hd tl ih =>
    obtain ⟨k, old⟩ := hd
    simp [ih]

theorem pass1Step_calls {sink : Sink} {remote : List (String × RemoteFile)}
    {k : String} {new : LocalFile} {c : SinkCall}
    (h : c ∈ (pass1Step sink remote k new).1) :
    ∃ s, c = SinkCall.save new.filepath new.content s := by
  unfold pass1Step at h
  cases hd : dget k remote with
  | none =>
    rw [hd] at h
    simp at h
    exact ⟨none, h⟩
  | some old =>
    rw [hd] at h
    by_cases hc : new.content = old.content
    · simp [hc] at h
    · simp [hc] at h
      exact ⟨some old.sha, h⟩

theorem pass1Step_events {sink : Sink} {remote : List (String × RemoteFile)}
    {k : String} {new : LocalFile} {e : ChangeEvent}
    (h : e ∈ (pass1Step sink remote k new).2) :
    e.filepath = new.filepath ∧ (e.action = Action.Created ∨ e.action = Action.Modified) := by
  unfold pass1Step at h
  cases hd : dget k remote with
  | none =>
    rw [hd] at h
    by_cases ht : truthy (sink.save new.filepath new.content none)
    · simp [ht] at h
      subst h
      simp [mkEventL]
    · simp [ht] at h
  | some old =>
    rw [hd] at h
    by_cases hc : new.content = old.content
    · simp [hc] at h
    · by_cases ht : truthy (sink.save new.filepath new.content (some old.sha))
      · simp [hc, ht] at h
        subst h
        simp [mkEventL]
      · simp [hc, ht] at h

theorem pass2Step_calls {sink : Sink} {localm : List (String × LocalFile)}
    {k : String} {old : RemoteFile} {c : SinkCall}
    (h : c ∈ (pass2Step sink localm k old).1) :
    c = SinkCall.delete old.filepath old.sha := by
  unfold pass2Step at h
  cases hd : dget k localm with
  | none =>
    rw [hd] at h
    simpa using h
  | some v =>
    rw [hd] at h
    simp at h

theorem pass2Step_events {sink : Sink} {localm : List (String × LocalFile)}
    {k : String} {old : RemoteFile} {e : ChangeEvent}
    (h : e ∈ (pass2Step sink localm k old).2) :
    e.filepath = old.filepath ∧ e.action = Action.Deleted := by
  unfold pass2Step at h
  cases hd : dget k localm with
  | none =>
    rw [hd] at h
    by_cases ht : truthy (sink.delete old.filepath old.sha)
    · simp [ht] at h
      subst h
      simp [mkEventR]
    · simp [ht] at h
  | some v =>
    rw [hd] at h
    simp at h

theorem pass1Step_calls_sink_indep (sink sink' : Sink)
    (remote : List (String × RemoteFile)) (k : String) (new : LocalFile) :
    (pass1Step sink remote k new).1 = (pass1Step sink' remote k new).1 := by
  unfold pass1Step
  cases dget k remote with
  | none => rfl
  | some old => by_cases hc : new.content = old.content <;> simp [hc]

theorem pass2Step_calls_sink_indep (sink sink' : Sink)
    (localm : List (String × LocalFile)) (k : String) (old : RemoteFile) :
    (pass2Step sink localm k old).1 = (pass2Step sink' localm k old).1 := by
  unfold pass2Step
  cases dget k localm with
  | none => rfl
  | some v => rfl

theorem pass1_calls_sink_indep (sink sink' : Sink)
    (remote : List (String × RemoteFile)) (L : List (String × LocalFile)) :
    (pass1 sink remote L).1 = (pass1 sink' remote L).1 := by
  rw [pass1_calls_flatten, pass1_calls_flatten]
  congr 1
  exact List.map_congr_left
    (fun p _ => pass1Step_calls_sink_indep sink sink' remote p.1 p.2)

theorem pass2_calls_sink_indep (sink sink' : Sink)
    (localm : List (String × LocalFile)) (R : List (String × RemoteFile)) :
    (pass2 sink localm R).1 = (pass2 sink' localm R).1 := by
  rw [pass2_calls_flatten, pass2_calls_flatten]
  congr 1
  exact List.map_congr_left
    (fun p _ => pass2Step_calls_sink_indep sink sink' localm p.1 p.2)

/-! ### Counting the per-unit sink calls and events -/

theorem pass1_calls_count_delete_zero (sink : Sink) (remote : List (String × RemoteFile))
    (L : List (String × LocalFile)) (p s : String) :
    countOcc (SinkCall.delete p s) (pass1 sink remote L).1 = 0 := by
  rw [pass1_calls_flatten]
  apply countOcc_join_zero
  intro q _ x hx heq
  obtain ⟨s', rfl⟩ := pass1Step_calls hx
  exact SinkCall.noConfusion heq

theorem pass2_calls_count_save_zero (sink : Sink) (localm : List (String × LocalFile))
    (R : List (String × RemoteFile)) (p t : String) (s : Option String) :
    countOcc (SinkCall.save p t s) (pass2 sink localm R).1 = 0 := by
  rw [pass2_calls_flatten]
  apply countOcc_join_zero
  intro q _ x hx heq
  rw [pass2Step_calls hx] at heq
  exact SinkCall.noConfusion heq

theorem pass1_events_count_deleted_zero (sink : Sink) (remote : List (String × RemoteFile))
    (L : List (String × LocalFile)) (e : ChangeEvent) (he : e.action = Action.Deleted) :
    countOcc e (pass1 sink remote L).2 = 0 := by
  rw [pass1_events_flatten]
  apply countOcc_join_zero
  intro q _ x hx heq
  subst heq
  rcases (pass1Step_events hx).2 with h | h <;> rw [h] at he <;> exact Action.noConfusion he

theorem pass2_events_count_not_deleted_zero (sink : Sink)
    (localm : List (String × LocalFile)) (R : List (String × RemoteFile))
    (e : ChangeEvent) (he : e.action ≠ Action.Deleted) :
    countOcc e (pass2 sink localm R).2 = 0 := by
  rw [pass2_events_flatten]
  apply countOcc_join_zero
  intro q _ x hx heq
  subst heq
  exact he (pass2Step_events hx).2

theorem pass1_calls_count_create {sink : Sink} {remote : List (String × RemoteFile)}
    {L : List (String × LocalFile)} {k : String} {new : LocalFile}
    (hfp : (L.map (fun p => p.2.filepath)).Nodup)
    (hmem : (k, new) ∈ L) (habs : dget k remote = none) :
    countOcc (SinkCall.save new.filepath new.content none) (pass1 sink remote L).1 = 1 := by
  rw [pass1_calls_flatten]
  apply countOcc_join_single _ (fun p => p.2.filepath) _ new.filepath ?_ hfp hmem rfl
  · unfold pass1Step
    rw [habs]
    simp [countOcc]
  · intro p x hx hne heq
    obtain ⟨s', rfl⟩ := pass1Step_calls hx
    injection heq with h1 _ _
    exact hne h1

theorem pass1_events_count_create {sink : Sink} {remote : List (String × RemoteFile)}
    {L : List (String × LocalFile)} {k : String} {new : LocalFile} {u : String}
    (hfp : (L.map (fun p => p.2.filepath)).Nodup)
    (hmem : (k, new) ∈ L) (habs : dget k remote = none)
    (hurl : sink.save new.filepath new.content none = some u) (hne : u ≠ "") :
    countOcc (mkEventL Action.Created new u) (pass1 sink remote L).2 = 1 := by
  rw [pass1_events_flatten]
  apply countOcc_join_single _ (fun p => p.2.filepath) _ new.filepath ?_ hfp hmem rfl
  · unfold pass1Step
    rw [habs]
    simp only
    rw [hurl]
    have ht : truthy (some u) = true := by
      simp [truthy, hne]
    rw [ht]
    simp [countOcc]
  · intro p x hx hfne heq
    subst heq
    exact hfne (pass1Step_events hx).1.symm

theorem pass1_calls_count_update {sink : Sink} {remote : List (String × RemoteFile)}
    {L : List (String × LocalFile)} {k : String} {new : LocalFile} {old : RemoteFile}
    (hfp : (L.map (fun p => p.2.filepath)).Nodup)
    (hmem : (k, new) ∈ L) (hget : dget k remote = some old)
    (hdiff : new.content ≠ old.content) :
    countOcc (SinkCall.save new.filepath new.content (some old.sha))
      (pass1 sink remote L).1 = 1 := by
  rw [pass1_calls_flatten]
  apply countOcc_join_single _ (fun p => p.2.filepath) _ new.filepath ?_ hfp hmem rfl
  · unfold pass1Step
    rw [hget]
    simp [hdiff, countOcc]
  · intro p x hx hne heq
    obtain ⟨s', rfl⟩ := pass1Step_calls hx
    injection heq with h1 _ _
    exact hne h1

theorem pass1_events_count_update {sink : Sink} {remote : List (String × RemoteFile)}
    {L : List (String × LocalFile)} {k : String} {new : LocalFile} {old : RemoteFile}
    {u : String}
    (hfp : (L.map (fun p => p.2.filepath)).Nodup)
    (hmem : (k, new) ∈ L) (hget : dget k remote = some old)
    (hdiff : new.content ≠ old.content)
    (hurl : sink.save new.filepath new.content (some old.sha) = some u) (hne : u ≠ "") :
    countOcc (mkEventL Action.Modified new u) (pass1 sink remote L).2 = 1 := by
  rw [pass1_events_flatten]
  apply countOcc_join_single _ (fun p => p.2.filepath) _ new.filepath ?_ hfp hmem rfl
  · unfold pass1Step
    rw [hget]
    simp only [hdiff, if_neg (fun h => hdiff h)]
    rw [hurl]
    have ht : truthy (some u) = true := by
      simp [truthy, hne]
    rw [ht]
    simp [countOcc]
  · intro p x hx hfne heq
    subst heq
    exact hfne (pass1Step_events hx).1.symm

theorem pass2_calls_count_delete {sink : Sink} {localm : List (String × LocalFile)}
    {R : List (String × RemoteFile)} {k : String} {old : RemoteFile}
    (hfp : (R.map (fun p => p.2.filepath)).Nodup)
    (hmem : (k, old) ∈ R) (habs : dget k localm = none) :
    countOcc (SinkCall.delete old.filepath old.sha) (pass2 sink localm R).1 = 1 := by
  rw [pass2_calls_flatten]
  apply countOcc_join_single _ (fun p => p.2.filepath) _ old.filepath ?_ hfp hmem rfl
  · unfold pass2Step
    rw [habs]
    simp [countOcc]
  · intro p x hx hne heq
    rw [pass2Step_calls hx] at heq
    injection heq with h1 _
    exact hne h1

theorem pass2_events_count_delete {sink : Sink} {localm : List (String × LocalFile)}
    {R : List (String × RemoteFile)} {k : String} {old : RemoteFile} {u : String}
    (hfp : (R.map (fun p => p.2.filepath)).Nodup)
    (hmem : (k, old) ∈ R) (habs : dget k localm = none)
    (hurl : sink.delete old.filepath old.sha = some u) (hne : u ≠ "") :
    countOcc (mkEventR Action.Deleted old u) (pass2 sink localm R).2 = 1 := by
  rw [pass2_events_flatten]
  apply countOcc_join_single _ (fun p => p.2.filepath) _ old.filepath ?_ hfp hmem rfl
  · unfold pass2Step
    rw [habs]
    simp only
    rw [hurl]
    have ht : truthy (some u) = true := by
      simp [truthy, hne]
    rw [ht]
    simp [countOcc]
  · intro p x hx hfne heq
    subst heq
    exact hfne (pass2Step_events hx).1.symm

theorem pass2_calls_count_delete_zero_of_present {sink : Sink}
    {localm : List (String × LocalFile)} {R : List (String × RemoteFile)}
    {k : String} {old : RemoteFile}
    (hfp : (R.map (fun p => p.2.filepath)).Nodup)
    (hmem : (k, old) ∈ R) (hpres : (dget k localm).isSome) :
    countOcc (SinkCall.delete old.filepath old.sha) (pass2 sink localm R).1 = 0 := by
  rw [pass2_calls_flatten]
  apply countOcc_join_zero
  intro p hp x hx heq
  by_cases hf : p.2.filepath = old.filepath
  · have hpe : p = (k, old) :=
      List.inj_on_of_nodup_map hfp hp hmem hf
    subst hpe
    obtain ⟨v, hv⟩ := Option.isSome_iff_exists.mp hpres
    unfold pass2Step at hx
    rw [hv] at hx
    simp at hx
  · rw [pass2Step_calls hx] at heq
    injection heq with h1 _
    exact hf h1

/-! ### Lemmas for the unchanged-unit and idempotence properties -/

theorem pass1Step_congr {sink : Sink} {R R' : List (String × RemoteFile)}
    {k : String} (new : LocalFile) (h : dget k R = dget k R') :
    pass1Step sink R k new = pass1Step sink R' k new := by
  unfold pass1Step
  rw [h]

theorem pass2Step_congr {sink : Sink} {L L' : List (String × LocalFile)}
    {k : String} (old : RemoteFile) (h : dget k L = dget k L') :
    pass2Step sink L k old = pass2Step sink L' k old := by
  unfold pass2Step
  rw [h]

theorem pass1_congr_remote {sink : Sink} {R R' : List (String × RemoteFile)} :
    ∀ {L : List (String × LocalFile)}, (∀ p ∈ L, dget p.1 R = dget p.1 R') →
      pass1 sink R L = pass1 sink R' L := by
  intro L
  induction L with
  | nil => intro _; rfl
  | cons hd tl ih =>
    obtain ⟨k, new⟩ := hd
    intro h
    rw [pass1_cons, pass1_cons,
      pass1Step_congr new (h (k, new) (List.mem_cons_self _ _)),
      ih (fun p hp => h p (List.mem_cons_of_mem _ hp))]

theorem pass2_congr_local {sink : Sink} {L L' : List (String × LocalFile)} :
    ∀ {R : List (String × RemoteFile)}, (∀ p ∈ R, dget p.1 L = dget p.1 L') →
      pass2 sink L R = pass2 sink L' R := by
  intro R
  induction R with
  | nil => intro _; rfl
  | cons hd tl ih =>
    obtain ⟨k, old⟩ := hd
    intro h
    rw [pass2_cons, pass2_cons,
      pass2Step_congr old (h (k, old) (List.mem_cons_self _ _)),
      ih (fun p hp => h p (List.mem_cons_of_mem _ hp))]

theorem pass1_drop_noop {sink : Sink} {R : List (String × RemoteFile)} {k : String}
    {new : LocalFile} :
    ∀ {L : List (String × LocalFile)}, (keys L).Nodup → (k, new) ∈ L →
      pass1Step sink R k new = ([], []) →
      pass1 sink R L = pass1 sink R (derase k L) := by
  intro L
  induction L with
  | nil => intro _ hmem _; simp at hmem
  | cons hd tl ih =>
    obtain ⟨k', n'⟩ := hd
    intro hnd hmem hstep
    simp only [keys_cons, List.nodup_cons] at hnd
    by_cases hk : k' = k
    · subst hk
      have hn : n' = new := by
        rcases List.mem_cons.mp hmem with h1 | h1
        · injection h1 with _ h1b
          exact h1b.symm
        · exact absurd (List.mem_map_of_mem Prod.fst h1) hnd.1
      subst hn
      rw [derase, if_pos rfl, pass1_cons, hstep]
      simp
    · have hmem' : (k, new) ∈ tl := by
        rcases List.mem_cons.mp hmem with h1 | h1
        · injection h1 with h1a _
          exact absurd h1a.symm hk
        · exact h1
      rw [derase, if_neg hk, pass1_cons, pass1_cons, ih hnd.2 hmem' hstep]

theorem pass2_drop_noop {sink : Sink} {L : List (String × LocalFile)} {k : String}
    {old : RemoteFile} :
    ∀ {R : List (String × RemoteFile)}, (keys R).Nodup → (k, old) ∈ R →
      pass2Step sink L k old = ([], []) →
      pass2 sink L R = pass2 sink L (derase k R) := by
  intro R
  induction R with
  | nil => intro _ hmem _; simp at hmem
  | cons hd tl ih =>
    obtain ⟨k', o'⟩ := hd
    intro hnd hmem hstep
    simp only [keys_cons, List.nodup_cons] at hnd
    by_cases hk : k' = k
    · subst hk
      have ho : o' = old := by
        rcases List.mem_cons.mp hmem with h1 | h1
        · injection h1 with _ h1b
          exact h1b.symm
        · exact absurd (List.mem_map_of_mem Prod.fst h1) hnd.1
      subst ho
      rw [derase, if_pos rfl, pass2_cons, hstep]
      simp
    · have hmem' : (k, old) ∈ tl := by
        rcases List.mem_cons.mp hmem with h1 | h1
        · injection h1 with h1a _
          exact absurd h1a.symm hk
        · exact h1
      rw [derase, if_neg hk, pass2_cons, pass2_cons, ih hnd.2 hmem' hstep]

theorem pass1_noop_all {sink : Sink} {R : List (String × RemoteFile)} :
    ∀ {L : List (String × LocalFile)},
      (∀ p ∈ L, ∃ old, dget p.1 R = some old ∧ old.content = p.2.content) →
      pass1 sink R L = ([], []) := by
  intro L
  induction L with
  | nil => intro _; rfl
  | cons hd tl ih =>
    obtain ⟨k, new⟩ := hd
    intro h
    obtain ⟨old, hget, hcont⟩ := h (k, new) (List.mem_cons_self _ _)
    have hstep : pass1Step sink R k new = ([], []) := by
      unfold pass1Step
      rw [hget]
      simp only [if_pos hcont.symm]
    rw [pass1_cons, hstep, ih (fun p hp => h p (List.mem_cons_of_mem _ hp))]
    simp

theorem pass2_noop_all {sink : Sink} {L : List (String × LocalFile)} :
    ∀ {R : List (String × RemoteFile)}, (∀ p ∈ R, (dget p.1 L).isSome) →
      pass2 sink L R = ([], []) := by
  intro R
  induction R with
  | nil => intro _; rfl
  | cons hd tl ih =>
    obtain ⟨k, old⟩ := hd
    intro h
    obtain ⟨v, hv⟩ := Option.isSome_iff_exists.mp (h (k, old) (List.mem_cons_self _ _))
    have hstep : pass2Step sink L k old = ([], []) := by
      unfold pass2Step
      rw [hv]
    rw [pass2_cons, hstep, ih (fun p hp => h p (List.mem_cons_of_mem _ hp))]
    simp

theorem CompareFiles_eq (sink : Sink) (localm : List (String × LocalFile))
    (remote : List (String × RemoteFile)) :
    CompareFiles sink localm remote =
      ((pass1 sink remote localm).1 ++ (pass2 sink localm remote).1,
       (pass1 sink remote localm).2 ++ (pass2 sink localm remote).2) := rfl

/-! ### The claims -/

/-- Claim C1: for every unit key present in the current mapping but absent from
the snapshot mapping, the reconciler issues exactly one create call with that
record's path and content and no revision token, and, when the sink returns a
(nonempty) reference, emits exactly one Created event for that unit; at the
sink level `SaveFile` with no `sha` dispatches to the repository's create
operation. -/
theorem c1_create_exactly_once (sink : Sink) (localm : List (String × LocalFile))
    (remote : List (String × RemoteFile)) (k : String) (new : LocalFile)
    (hfp : (localm.map (fun p => p.2.filepath)).Nodup)
    (hmem : (k, new) ∈ localm)
    (habs : dget k remote = none) :
    countOcc (SinkCall.save new.filepath new.content none)
      (CompareFiles sink localm remote).1 = 1
    ∧ (∀ u, sink.save new.filepath new.content none = some u → u ≠ "" →
        countOcc (mkEventL Action.Created new u) (CompareFiles sink localm remote).2 = 1)
    ∧ ∀ repo p c, SaveFile repo p c none =
        commitUrlOf (repo.createFile p ("Create " ++ p) c) := by
  refine ⟨?_, ?_, ?_⟩
  · show countOcc _ ((pass1 sink remote localm).1 ++ (pass2 sink localm remote).1) = 1
    rw [countOcc_append, pass1_calls_count_create hfp hmem habs,
      pass2_calls_count_save_zero]
  · intro u hurl hne
    show countOcc _ ((pass1 sink remote localm).2 ++ (pass2 sink localm remote).2) = 1
    rw [countOcc_append, pass1_events_count_create hfp hmem habs hurl hne,
      pass2_events_count_not_deleted_zero sink localm remote
        (mkEventL Action.Created new u) (fun h => Action.noConfusion h)]
  · intro repo p c
    simp [SaveFile, truthy]

/-- Witness for C1 at the spec's scenario `current = {"a/compose.yaml": "X"}`,
`snapshot = {}`. -/
theorem c1_create_exactly_once_witness :
    countOcc (SinkCall.save "projects/a/compose.yaml" "X" none)
      (CompareFiles ⟨fun _ _ _ => some "u", fun _ _ => some "d"⟩
        [("a/compose.yaml", ⟨"a", "compose.yaml", "projects/a/compose.yaml", "X"⟩)]
        []).1 = 1
    ∧ countOcc
        (mkEventL Action.Created ⟨"a", "compose.yaml", "projects/a/compose.yaml", "X"⟩ "u")
        (CompareFiles ⟨fun _ _ _ => some "u", fun _ _ => some "d"⟩
          [("a/compose.yaml", ⟨"a", "compose.yaml", "projects/a/compose.yaml", "X"⟩)]
          []).2 = 1
    ∧ ∀ repo p c, SaveFile repo p c none =
        commitUrlOf (repo.createFile p ("Create " ++ p) c) := by
  have h := c1_create_exactly_once ⟨fun _ _ _ => some "u", fun _ _ => some "d"⟩
    [("a/compose.yaml", ⟨"a", "compose.yaml", "projects/a/compose.yaml", "X"⟩)] []
    "a/compose.yaml" ⟨"a", "compose.yaml", "projects/a/compose.yaml", "X"⟩
    (by decide) (by decide) rfl
  exact ⟨h.1, h.2.1 "u" rfl (by decide), h.2.2⟩

/-- Claim C2: for every unit key present in both mappings with differing
content, the reconciler issues exactly one update call passing the current
record's path and content together with the snapshot record's `sha`, and on a
(nonempty) returned reference emits exactly one Modified event; at the sink
level `SaveFile` with a nonempty `sha` dispatches to the repository's update
operation with that `sha`. -/
theorem c2_modified_exactly_once (sink : Sink) (localm : List (String × LocalFile))
    (remote : List (String × RemoteFile)) (k : String) (new : LocalFile)
    (old : RemoteFile)
    (hfp : (localm.map (fun p => p.2.filepath)).Nodup)
    (hmem : (k, new) ∈ localm)
    (hget : dget k remote = some old)
    (hdiff : new.content ≠ old.content) :
    countOcc (SinkCall.save new.filepath new.content (some old.sha))
      (CompareFiles sink localm remote).1 = 1
    ∧ (∀ u, sink.save new.filepath new.content (some old.sha) = some u → u ≠ "" →
        countOcc (mkEventL Action.Modified new u) (CompareFiles sink localm remote).2 = 1)
    ∧ ∀ repo p c s, s ≠ "" → SaveFile repo p c (some s) =
        commitUrlOf (repo.updateFile p ("Update " ++ p) c s) := by
  refine ⟨?_, ?_, ?_⟩
  · show countOcc _ ((pass1 sink remote localm).1 ++ (pass2 sink localm remote).1) = 1
    rw [countOcc_append, pass1_calls_count_update hfp hmem hget hdiff,
      pass2_calls_count_save_zero]
  · intro u hurl hne
    show countOcc _ ((pass1 sink remote localm).2 ++ (pass2 sink localm remote).2) = 1
    rw [countOcc_append, pass1_events_count_update hfp hmem hget hdiff hurl hne,
      pass2_events_count_not_deleted_zero sink localm remote
        (mkEventL Action.Modified new u) (fun h => Action.noConfusion h)]
  · intro repo p c s hs
    simp [SaveFile, truthy, hs]

/-- Witness for C2 at the spec's scenario `current = {"a/compose.yaml": "Y"}`,
`snapshot = {"a/compose.yaml": content "X", revision "r1"}`. -/
theorem c2_modified_exactly_once_witness :
    countOcc (SinkCall.save "projects/a/compose.yaml" "Y" (some "r1"))
      (CompareFiles ⟨fun _ _ _ => some "u", fun _ _ => some "d"⟩
        [("a/compose.yaml", ⟨"a", "compose.yaml", "projects/a/compose.yaml", "Y"⟩)]
        [("a/compose.yaml", ⟨"a", "compose.yaml", "projects/a/compose.yaml", "X", "r1"⟩)]).1 = 1
    ∧ countOcc
        (mkEventL Action.Modified ⟨"a", "compose.yaml", "projects/a/compose.yaml", "Y"⟩ "u")
        (CompareFiles ⟨fun _ _ _ => some "u", fun _ _ => some "d"⟩
          [("a/compose.yaml", ⟨"a", "compose.yaml", "projects/a/compose.yaml", "Y"⟩)]
          [("a/compose.yaml", ⟨"a", "compose.yaml", "projects/a/compose.yaml", "X", "r1"⟩)]).2 = 1
    ∧ ∀ repo p c s, s ≠ "" → SaveFile repo p c (some s) =
        commitUrlOf (repo.updateFile p ("Update " ++ p) c s) := by
  have h := c2_modified_exactly_once ⟨fun _ _ _ => some "u", fun _ _ => some "d"⟩
    [("a/compose.yaml", ⟨"a", "compose.yaml", "projects/a/compose.yaml", "Y"⟩)]
    [("a/compose.yaml", ⟨"a", "compose.yaml", "projects/a/compose.yaml", "X", "r1"⟩)]
    "a/compose.yaml" ⟨"a", "compose.yaml", "projects/a/compose.yaml", "Y"⟩
    ⟨"a", "compose.yaml", "projects/a/compose.yaml", "X", "r1"⟩
    (by decide) (by decide) rfl (by decide)
  exact ⟨h.1, h.2.1 "u" rfl (by decide), h.2.2⟩

/-- Claim C3: an unchanged unit (present in both mappings with exactly equal
content) contributes no sink call and no event — removing it from both
mappings leaves the whole reconciliation trace unchanged — and when every unit
is unchanged (both mappings agree on keys and contents) reconciliation
produces no side effects at all. -/
theorem c3_unchanged_no_side_effects (sink : Sink) (localm : List (String × LocalFile))
    (remote : List (String × RemoteFile)) :
    (∀ k new old, (keys localm).Nodup → (keys remote).Nodup →
      (k, new) ∈ localm → dget k remote = some old → new.content = old.content →
      CompareFiles sink localm remote =
        CompareFiles sink (derase k localm) (derase k remote))
    ∧ ((∀ p ∈ localm, ∃ old, dget p.1 remote = some old ∧ old.content = p.2.content) →
      (∀ p ∈ remote, (dget p.1 localm).isSome) →
      CompareFiles sink localm remote = ([], [])) := by
  constructor
  · intro k new old hndL hndR hmem hget hcont
    have hstep1 : pass1Step sink remote k new = ([], []) := by
      unfold pass1Step
      rw [hget]
      simp only [if_pos hcont]
    have h1 := pass1_drop_noop hndL hmem hstep1
    have h2 : pass1 sink remote (derase k localm) =
        pass1 sink (derase k remote) (derase k localm) := by
      apply pass1_congr_remote
      intro p hp
      exact (dget_derase_of_ne (mem_derase_key_ne hndL hmem p hp)).symm
    have hmemR : (k, old) ∈ remote := mem_of_dget hget
    have hstep2 : pass2Step sink localm k old = ([], []) := by
      unfold pass2Step
      obtain ⟨v, hv⟩ := Option.isSome_iff_exists.mp (dget_isSome_of_mem hmem)
      rw [hv]
    have h3 := pass2_drop_noop hndR hmemR hstep2
    have h4 : pass2 sink localm (derase k remote) =
        pass2 sink (derase k localm) (derase k remote) := by
      apply pass2_congr_local
      intro p hp
      exact (dget_derase_of_ne (mem_derase_key_ne hndR hmemR p hp)).symm
    rw [CompareFiles_eq, CompareFiles_eq, h1, h2, h3, h4]
  · intro h1 h2
    rw [CompareFiles_eq, pass1_noop_all h1, pass2_noop_all h2]
    rfl

/-- Witness for C3 at the spec's scenario `current = {"a/compose.yaml": "X"}`,
`snapshot = {"a/compose.yaml": content "X", revision "r1"}`. -/
theorem c3_unchanged_no_side_effects_witness :
    CompareFiles ⟨fun _ _ _ => some "u", fun _ _ => some "d"⟩
      [("a/compose.yaml", ⟨"a", "compose.yaml", "projects/a/compose.yaml", "X"⟩)]
      [("a/compose.yaml", ⟨"a", "compose.yaml", "projects/a/compose.yaml", "X", "r1"⟩)]
      = CompareFiles ⟨fun _ _ _ => some "u", fun _ _ => some "d"⟩
          (derase "a/compose.yaml"
            [("a/compose.yaml", ⟨"a", "compose.yaml", "projects/a/compose.yaml", "X"⟩)])
          (derase "a/compose.yaml"
            [("a/compose.yaml", ⟨"a", "compose.yaml", "projects/a/compose.yaml", "X", "r1"⟩)])
    ∧ CompareFiles ⟨fun _ _ _ => some "u", fun _ _ => some "d"⟩
        [("a/compose.yaml", ⟨"a", "compose.yaml", "projects/a/compose.yaml", "X"⟩)]
        [("a/compose.yaml", ⟨"a", "compose.yaml", "projects/a/compose.yaml", "X", "r1"⟩)]
      = ([], []) := by
  have h := c3_unchanged_no_side_effects ⟨fun _ _ _ => some "u", fun _ _ => some "d"⟩
    [("a/compose.yaml", ⟨"a", "compose.yaml", "projects/a/compose.yaml", "X"⟩)]
    [("a/compose.yaml", ⟨"a", "compose.yaml", "projects/a/compose.yaml", "X", "r1"⟩)]
  refine ⟨h.1 "a/compose.yaml" ⟨"a", "compose.yaml", "projects/a/compose.yaml", "X"⟩
    ⟨"a", "compose.yaml", "projects/a/compose.yaml", "X", "r1"⟩
    (by decide) (by decide) (by decide) rfl rfl, h.2 ?_ ?_⟩
  · intro p hp
    rw [List.mem_singleton] at hp
    subst hp
    exact ⟨⟨"a", "compose.yaml", "projects/a/compose.yaml", "X", "r1"⟩, rfl, rfl⟩
  · intro p hp
    rw [List.mem_singleton] at hp
    subst hp
    decide

/-- Claim C4: every snapshot-only unit is deleted exactly once with its stored
path and `sha` (one Deleted event on a nonempty returned reference), and the
delete operation is never issued for a unit whose key is present in the
current mapping. -/
theorem c4_delete_exactly_once (sink : Sink) (localm : List (String × LocalFile))
    (remote : List (String × RemoteFile)) (k : String) (old : RemoteFile)
    (hfp : (remote.map (fun p => p.2.filepath)).Nodup)
    (hmem : (k, old) ∈ remote) :
    (dget k localm = none →
      countOcc (SinkCall.delete old.filepath old.sha)
        (CompareFiles sink localm remote).1 = 1
      ∧ ∀ u, sink.delete old.filepath old.sha = some u → u ≠ "" →
          countOcc (mkEventR Action.Deleted old u)
            (CompareFiles sink localm remote).2 = 1)
    ∧ ((dget k localm).isSome →
      countOcc (SinkCall.delete old.filepath old.sha)
        (CompareFiles sink localm remote).1 = 0) := by
  constructor
  · intro habs
    constructor
    · show countOcc _ ((pass1 sink remote localm).1 ++ (pass2 sink localm remote).1) = 1
      rw [countOcc_append, pass1_calls_count_delete_zero,
        pass2_calls_count_delete hfp hmem habs]
    · intro u hurl hne
      show countOcc _ ((pass1 sink remote localm).2 ++ (pass2 sink localm remote).2) = 1
      rw [countOcc_append,
        pass1_events_count_deleted_zero sink remote localm
          (mkEventR Action.Deleted old u) rfl,
        pass2_events_count_delete hfp hmem habs hurl hne]
  · intro hpres
    show countOcc _ ((pass1 sink remote localm).1 ++ (pass2 sink localm remote).1) = 0
    rw [countOcc_append, pass1_calls_count_delete_zero,
      pass2_calls_count_delete_zero_of_present hfp hmem hpres]

/-- Witness for C4 at the spec's scenario `current = {}`,
`snapshot = {"a/compose.yaml": content "X", revision "r1"}`. -/
theorem c4_delete_exactly_once_witness :
    countOcc (SinkCall.delete "projects/a/compose.yaml" "r1")
      (CompareFiles ⟨fun _ _ _ => some "u", fun _ _ => some "d"⟩ []
        [("a/compose.yaml", ⟨"a", "compose.yaml", "projects/a/compose.yaml", "X", "r1"⟩)]).1 = 1
    ∧ countOcc
        (mkEventR Action.Deleted ⟨"a", "compose.yaml", "projects/a/compose.yaml", "X", "r1"⟩ "d")
        (CompareFiles ⟨fun _ _ _ => some "u", fun _ _ => some "d"⟩ []
          [("a/compose.yaml", ⟨"a", "compose.yaml", "projects/a/compose.yaml", "X", "r1"⟩)]).2 = 1 := by
  have h := c4_delete_exactly_once ⟨fun _ _ _ => some "u", fun _ _ => some "d"⟩ []
    [("a/compose.yaml", ⟨"a", "compose.yaml", "projects/a/compose.yaml", "X", "r1"⟩)]
    "a/compose.yaml" ⟨"a", "compose.yaml", "projects/a/compose.yaml", "X", "r1"⟩
    (by decide) (by decide)
  exact ⟨(h.1 rfl).1, (h.1 rfl).2 "d" rfl (by decide)⟩

/-- Claim C5: the reconciliation trace decomposes into the complete first pass
followed by the complete second pass: every create/update call precedes every
delete call, and no Deleted event precedes a Created or Modified event. -/
theorem c5_pass1_before_pass2 (sink : Sink) (localm : List (String × LocalFile))
    (remote : List (String × RemoteFile)) :
    ∃ cs1 cs2 es1 es2,
      CompareFiles sink localm remote = (cs1 ++ cs2, es1 ++ es2)
      ∧ (∀ c ∈ cs1, ∃ p t s, c = SinkCall.save p t s)
      ∧ (∀ c ∈ cs2, ∃ p s, c = SinkCall.delete p s)
      ∧ (∀ e ∈ es1, e.action = Action.Created ∨ e.action = Action.Modified)
      ∧ (∀ e ∈ es2, e.action = Action.Deleted) := by
  refine ⟨(pass1 sink remote localm).1, (pass2 sink localm remote).1,
    (pass1 sink remote localm).2, (pass2 sink localm remote).2,
    CompareFiles_eq sink localm remote, ?_, ?_, ?_, ?_⟩
  · intro c hc
    rw [pass1_calls_flatten] at hc
    simp only [List.mem_flatten, List.mem_map] at hc
    obtain ⟨_, ⟨p, _, rfl⟩, hc⟩ := hc
    obtain ⟨s, rfl⟩ := pass1Step_calls hc
    exact ⟨p.2.filepath, p.2.content, s, rfl⟩
  · intro c hc
    rw [pass2_calls_flatten] at hc
    simp only [List.mem_flatten, List.mem_map] at hc
    obtain ⟨_, ⟨p, _, rfl⟩, hc⟩ := hc
    exact ⟨p.2.filepath, p.2.sha, pass2Step_calls hc⟩
  · intro e he
    rw [pass1_events_flatten] at he
    simp only [List.mem_flatten, List.mem_map] at he
    obtain ⟨_, ⟨p, _, rfl⟩, he⟩ := he
    exact (pass1Step_events he).2
  · intro e he
    rw [pass2_events_flatten] at he
    simp only [List.mem_flatten, List.mem_map] at he
    obtain ⟨_, ⟨p, _, rfl⟩, he⟩ := he
    exact (pass2Step_events he).2

/-- Witness for C5 on a mixed two-unit input. -/
theorem c5_pass1_before_pass2_witness :
    ∃ cs1 cs2 es1 es2,
      CompareFiles ⟨fun _ _ _ => some "u", fun _ _ => some "d"⟩
        [("a/compose.yaml", ⟨"a", "compose.yaml", "projects/a/compose.yaml", "X"⟩)]
        [("b/compose.yaml", ⟨"b", "compose.yaml", "projects/b/compose.yaml", "Z", "r2"⟩)]
        = (cs1 ++ cs2, es1 ++ es2)
      ∧ (∀ c ∈ cs1, ∃ p t s, c = SinkCall.save p t s)
      ∧ (∀ c ∈ cs2, ∃ p s, c = SinkCall.delete p s)
      ∧ (∀ e ∈ es1, e.action = Action.Created ∨ e.action = Action.Modified)
      ∧ (∀ e ∈ es2, e.action = Action.Deleted) :=
  c5_pass1_before_pass2 ⟨fun _ _ _ => some "u", fun _ _ => some "d"⟩
    [("a/compose.yaml", ⟨"a", "compose.yaml", "projects/a/compose.yaml", "X"⟩)]
    [("b/compose.yaml", ⟨"b", "compose.yaml", "projects/b/compose.yaml", "Z", "r2"⟩)]

/-- Claim C6: sink failures are contained.  The sequence of sink calls is
independent of the sink's results (so one unit's failure never prevents the
remaining units of either pass from being processed); the event trace is the
per-unit concatenation of the two passes; a unit whose create, update or
delete returns no reference contributes no event; and `SaveFile` /
`DeleteFile` absorb a raising repository endpoint into `None` instead of
propagating. -/
theorem c6_failure_containment (sink sink' : Sink) (localm : List (String × LocalFile))
    (remote : List (String × RemoteFile)) :
    (CompareFiles sink localm remote).1 = (CompareFiles sink' localm remote).1
    ∧ (CompareFiles sink localm remote).2 =
        (pass1 sink remote localm).2 ++ (pass2 sink localm remote).2
    ∧ (∀ k new, dget k remote = none →
        sink.save new.filepath new.content none = none →
        (pass1Step sink remote k new).2 = [])
    ∧ (∀ k new old, dget k remote = some old → new.content ≠ old.content →
        sink.save new.filepath new.content (some old.sha) = none →
        (pass1Step sink remote k new).2 = [])
    ∧ (∀ k old, dget k localm = none →
        sink.delete old.filepath old.sha = none →
        (pass2Step sink localm k old).2 = [])
    ∧ (∀ repo p c e, repo.createFile p ("Create " ++ p) c = Except.error e →
        SaveFile repo p c none = none)
    ∧ (∀ repo p c s e, s ≠ "" → repo.updateFile p ("Update " ++ p) c s = Except.error e →
        SaveFile repo p c (some s) = none)
    ∧ (∀ repo p s e, repo.deleteFile p ("Delete " ++ p) s = Except.error e →
        DeleteFile repo p s = none) := by
  refine ⟨?_, rfl, ?_, ?_, ?_, ?_, ?_, ?_⟩
  · show (pass1 sink remote localm).1 ++ (pass2 sink localm remote).1
      = (pass1 sink' remote localm).1 ++ (pass2 sink' localm remote).1
    rw [pass1_calls_sink_indep sink sink', pass2_calls_sink_indep sink sink']
  · intro k new habs hurl
    unfold pass1Step
    rw [habs]
    simp only
    rw [hurl]
    rfl
  · intro k new old hget hdiff hurl
    unfold pass1Step
    rw [hget]
    simp only [if_neg hdiff]
    rw [hurl]
    rfl
  · intro k old habs hurl
    unfold pass2Step
    rw [habs]
    simp only
    rw [hurl]
    rfl
  · intro repo p c e he
    simp [SaveFile, truthy, he, commitUrlOf]
  · intro repo p c s e hs he
    simp [SaveFile, truthy, hs, he, commitUrlOf]
  · intro repo p s e he
    simp [DeleteFile, he, commitUrlOf]

/-- Witness for C6: an all-failing sink issues the same calls as an
all-succeeding one, a failed create emits no event, and a raising repository
endpoint yields `None` from `SaveFile`. -/
theorem c6_failure_containment_witness :
    (CompareFiles ⟨fun _ _ _ => none, fun _ _ => none⟩
      [("a/compose.yaml", ⟨"a", "compose.yaml", "projects/a/compose.yaml", "X"⟩)]
      []).1
      = (CompareFiles ⟨fun _ _ _ => some "u", fun _ _ => some "d"⟩
          [("a/compose.yaml", ⟨"a", "compose.yaml", "projects/a/compose.yaml", "X"⟩)]
          []).1
    ∧ (pass1Step ⟨fun _ _ _ => none, fun _ _ => none⟩ [] "a/compose.yaml"
        ⟨"a", "compose.yaml", "projects/a/compose.yaml", "X"⟩).2 = []
    ∧ SaveFile ⟨true, "me/backup", fun _ _ _ => Except.error "boom",
        fun _ _ _ _ => Except.error "boom", fun _ _ _ => Except.error "boom"⟩
        "projects/a/compose.yaml" "X" none = none := by
  have h := c6_failure_containment ⟨fun _ _ _ => none, fun _ _ => none⟩
    ⟨fun _ _ _ => some "u", fun _ _ => some "d"⟩
    [("a/compose.yaml", ⟨"a", "compose.yaml", "projects/a/compose.yaml", "X"⟩)] []
  exact ⟨h.1,
    h.2.2.1 "a/compose.yaml" ⟨"a", "compose.yaml", "projects/a/compose.yaml", "X"⟩ rfl rfl,
    h.2.2.2.2.2.1 ⟨true, "me/backup", fun _ _ _ => Except.error "boom",
      fun _ _ _ _ => Except.error "boom", fun _ _ _ => Except.error "boom"⟩
      "projects/a/compose.yaml" "X" "boom" rfl⟩

/-- Counterexample for C7 as stated: at a concrete failing read (`httpx.get`
raising), the source's `GetStack` returns normally with no content — the
failure does not propagate — while the spec-modelled propagating reader errors. -/
theorem c7_cex_read_failure_swallowed :
    GetStack (HttpResult.transportError "timeout") = none
    ∧ GetStackSpecModel (HttpResult.transportError "timeout") = Except.error "timeout" :=
  ⟨rfl, rfl⟩

/-- Claim C7 (amended): in the remote-API-backed variant every failure to read
one unit's file body — transport error, bad status, missing content — is
caught and yields `None` rather than propagating, and in the local-filesystem
variant a missing root directory is a soft failure yielding an empty mapping. -/
theorem c7_read_failure_handling (dirName : String) (fs : LocalFS) (msg : String)
    (content : Option String) (hroot : fs.rootExists = false) :
    GetStack (HttpResult.transportError msg) = none
    ∧ GetStack (HttpResult.response true content) = none
    ∧ GetStack (HttpResult.response false none) = none
    ∧ GetLocalFiles dirName fs = [] := by
  refine ⟨rfl, ?_, rfl, ?_⟩
  · simp [GetStack]
  · simp [GetLocalFiles, hroot]

/-- Witness for C7 (amended) at a concrete missing directory and failing read. -/
theorem c7_read_failure_handling_witness :
    GetStack (HttpResult.transportError "timeout") = none
    ∧ GetStack (HttpResult.response true (some "svc")) = none
    ∧ GetStack (HttpResult.response false none) = none
    ∧ GetLocalFiles "./projects" ⟨false, [⟨["a", "compose.yaml"], false, "X"⟩]⟩ = [] :=
  c7_read_failure_handling "./projects" ⟨false, [⟨["a", "compose.yaml"], false, "X"⟩]⟩
    "timeout" (some "svc") rfl

/-- Claim C8: when the configured repository is found but is not private, the
repository lookup returns nothing and the run ends with the early
`exitNoRepo` return — before any snapshot read or reconciliation, whatever the
repository's files would have been. -/
theorem c8_refuse_public_repo (env : Env) (repo : Repo) (login : String)
    (hauth : Authenticate env.authResult = some login)
    (hrepo : env.repoLookup = Except.ok repo)
    (hpriv : repo.isPrivate = false) :
    GetRepository env.repoLookup = none
    ∧ Start env = Except.ok RunResult.exitNoRepo
    ∧ ∀ files', Start { env with repoFiles := files' } = Except.ok RunResult.exitNoRepo := by
  have hrep : GetRepository env.repoLookup = none := by
    rw [hrepo]
    simp [GetRepository, hpriv]
  refine ⟨hrep, ?_, ?_⟩
  · simp [Start, hauth, hrep]
  · intro files'
    simp [Start, hauth, hrep]

/-- Witness for C8 at a concrete non-private repository. -/
theorem c8_refuse_public_repo_witness :
    GetRepository (Except.ok (⟨false, "me/backup",
        fun _ _ _ => Except.ok ⟨some "u"⟩, fun _ _ _ _ => Except.ok ⟨some "u"⟩,
        fun _ _ _ => Except.ok ⟨some "u"⟩⟩ : Repo)) = none
    ∧ Start ⟨"./projects", ⟨true, []⟩, Except.ok (GitUser.authenticated "me"),
        Except.ok ⟨false, "me/backup",
          fun _ _ _ => Except.ok ⟨some "u"⟩, fun _ _ _ _ => Except.ok ⟨some "u"⟩,
          fun _ _ _ => Except.ok ⟨some "u"⟩⟩, []⟩ = Except.ok RunResult.exitNoRepo
    ∧ ∀ files', Start { (⟨"./projects", ⟨true, []⟩,
        Except.ok (GitUser.authenticated "me"),
        Except.ok ⟨false, "me/backup",
          fun _ _ _ => Except.ok ⟨some "u"⟩, fun _ _ _ _ => Except.ok ⟨some "u"⟩,
          fun _ _ _ => Except.ok ⟨some "u"⟩⟩, []⟩ : Env) with repoFiles := files' }
        = Except.ok RunResult.exitNoRepo :=
  c8_refuse_public_repo
    ⟨"./projects", ⟨true, []⟩, Except.ok (GitUser.authenticated "me"),
      Except.ok ⟨false, "me/backup",
        fun _ _ _ => Except.ok ⟨some "u"⟩, fun _ _ _ _ => Except.ok ⟨some "u"⟩,
        fun _ _ _ => Except.ok ⟨some "u"⟩⟩, []⟩
    ⟨false, "me/backup",
      fun _ _ _ => Except.ok ⟨some "u"⟩, fun _ _ _ _ => Except.ok ⟨some "u"⟩,
      fun _ _ _ => Except.ok ⟨some "u"⟩⟩ "me" rfl rfl rfl

/-! ### String lemmas for the key-derivation claims -/

theorem string_toList_append (a b : String) : (a ++ b).toList = a.toList ++ b.toList := rfl

theorem string_mk_toList (s : String) : String.mk s.toList = s := rfl

theorem toList_slash : ("/" : String).toList = ['/'] := rfl

theorem toList_slash_append (a b : String) :
    (a ++ "/" ++ b).toList = a.toList ++ '/' :: b.toList := by
  rw [string_toList_append, string_toList_append, toList_slash, List.append_assoc]
  rfl

theorem isPref_append (p r : List Char) : isPref p (p ++ r) = true := by
  induction p with
  | nil => rfl
  | cons a as ih => simp [isPref, ih]

theorem pyStartswith_of_toList {s pd : String} (h : ∃ r, s.toList = pd.toList ++ r) :
    pyStartswith s pd = true := by
  obtain ⟨r, hr⟩ := h
  unfold pyStartswith
  rw [hr]
  exact isPref_append _ _

theorem splitChars_sep (c : Char) {a : List Char} (b : List Char) (h : c ∉ a) :
    splitChars c (a ++ c :: b) = a :: splitChars c b := by
  induction a with
  | nil => simp [splitChars]
  | cons x xs ih =>
    have hx : ¬(x = c) := fun he => h (he ▸ List.mem_cons_self x xs)
    have h' : c ∉ xs := fun hm => h (List.mem_cons_of_mem _ hm)
    simp only [List.cons_append]
    rw [show splitChars c (x :: (xs ++ c :: b)) =
      (if x = c then [] :: splitChars c (xs ++ c :: b)
       else (x :: (splitChars c (xs ++ c :: b)).headI)
         :: (splitChars c (xs ++ c :: b)).tail) from rfl]
    rw [if_neg hx, ih h']
    simp [List.headI]

theorem splitChars_no_sep (c : Char) {a : List Char} (h : c ∉ a) :
    splitChars c a = [a] := by
  induction a with
  | nil => rfl
  | cons x xs ih =>
    have hx : ¬(x = c) := fun he => h (he ▸ List.mem_cons_self x xs)
    have h' : c ∉ xs := fun hm => h (List.mem_cons_of_mem _ hm)
    simp [splitChars, hx, ih h', List.headI]

theorem joinSegs_cons_cons (s t : String) (r : List String) :
    joinSegs (s :: t :: r) = s ++ "/" ++ joinSegs (t :: r) := rfl

theorem mem_toList_joinSegs {ch : Char} :
    ∀ {segs : List String}, ch ∈ (joinSegs segs).toList →
      ch = '/' ∨ ∃ s ∈ segs, ch ∈ s.toList := by
  intro segs
  induction segs with
  | nil => intro h; simp [joinSegs] at h
  | cons s rest ih =>
    cases rest with
    | nil =>
      intro h
      exact Or.inr ⟨s, List.mem_cons_self _ _, h⟩
    | cons t r =>
      intro h
      rw [joinSegs_cons_cons, toList_slash_append] at h
      rcases List.mem_append.mp h with h1 | h1
      · exact Or.inr ⟨s, List.mem_cons_self _ _, h1⟩
      · rcases List.mem_cons.mp h1 with h2 | h2
        · exact Or.inl h2
        · rcases ih h2 with h3 | ⟨s', hs', hc⟩
          · exact Or.inl h3
          · exact Or.inr ⟨s', List.mem_cons_of_mem _ hs', hc⟩

theorem map_replaceBackslash_id {l : List Char} (h : '\\' ∉ l) :
    l.map (fun ch => if ch = '\\' then '/' else ch) = l := by
  induction l with
  | nil => rfl
  | cons x xs ih =>
    have hx : ¬(x = '\\') := fun he => h (he ▸ List.mem_cons_self x xs)
    simp [hx, ih (fun hm => h (List.mem_cons_of_mem _ hm))]

theorem pyReplaceBackslash_id {s : String} (h : '\\' ∉ s.toList) :
    pyReplaceBackslash s = s := by
  unfold pyReplaceBackslash
  rw [map_replaceBackslash_id h, string_mk_toList]

theorem localFilepath_of_no_backslash (dirName : String) (segs : List String)
    (hb : '\\' ∉ (stripDotSlash dirName).toList)
    (hsb : ∀ s ∈ segs, '\\' ∉ s.toList) :
    localFilepath dirName segs = stripDotSlash dirName ++ "/" ++ joinSegs segs := by
  unfold localFilepath
  apply pyReplaceBackslash_id
  rw [toList_slash_append]
  intro hmem
  rcases List.mem_append.mp hmem with h1 | h1
  · exact hb h1
  · rcases List.mem_cons.mp h1 with h2 | h2
    · exact absurd h2 (by decide)
    · rcases mem_toList_joinSegs h2 with h3 | ⟨s, hs, hc⟩
      · exact absurd h3 (by decide)
      · exact hsb s hs hc

theorem pySplit_second (pd s0 : String) (more : List String)
    (hpd : '/' ∉ pd.toList) (hs0 : '/' ∉ s0.toList) :
    (pySplit '/' (pd ++ "/" ++ joinSegs (s0 :: more)))[1]? = some s0 := by
  unfold pySplit
  rw [toList_slash_append, splitChars_sep _ _ hpd]
  cases more with
  | nil =>
    rw [show joinSegs [s0] = s0 from rfl, splitChars_no_sep _ hs0]
    simp [string_mk_toList]
  | cons t r =>
    rw [joinSegs_cons_cons, toList_slash_append, splitChars_sep _ _ hs0]
    simp [string_mk_toList]

theorem GetLocalFiles_singleton (dirName : String) (segs : List String) (cont : String) :
    GetLocalFiles dirName ⟨true, [⟨segs, false, cont⟩]⟩ =
      [(segs.headD "" ++ "/" ++ segs.getLast?.getD "",
        ⟨segs.headD "", segs.getLast?.getD "", localFilepath dirName segs, cont⟩)] := by
  simp [GetLocalFiles, dinsert]

theorem GetRemoteFiles_singleton_of (dirName : String) (f : RepoFile) (proj : String)
    (hstart : pyStartswith f.path (stripDotSlash dirName) = true)
    (hsplit : (pySplit '/' f.path)[1]? = some proj) :
    GetRemoteFiles dirName [f] =
      Except.ok [(proj ++ "/" ++ f.name, ⟨proj, f.name, f.path, f.content, f.sha⟩)] := by
  unfold GetRemoteFiles remoteLoop
  rw [hstart, hsplit]
  simp [dinsert, remoteLoop]

/-- Counterexample for C9 as stated: with a multi-segment projects directory
`data/projects`, the same stored file `data/projects/myapp/compose.yaml` is
keyed `myapp/compose.yaml` by the Source Reader but `projects/compose.yaml`
by the Snapshot Reader — the project components differ. -/
theorem c9_cex_keys_diverge :
    GetLocalFiles "data/projects" ⟨true, [⟨["myapp", "compose.yaml"], false, "X"⟩]⟩
      = [("myapp/compose.yaml",
          ⟨"myapp", "compose.yaml", "data/projects/myapp/compose.yaml", "X"⟩)]
    ∧ GetRemoteFiles "data/projects"
        [⟨"data/projects/myapp/compose.yaml", "compose.yaml", "X", "r1"⟩]
      = Except.ok [("projects/compose.yaml",
          ⟨"projects", "compose.yaml", "data/projects/myapp/compose.yaml", "X", "r1"⟩)]
    ∧ ("myapp/compose.yaml" : String) ≠ "projects/compose.yaml" := by
  refine ⟨rfl, rfl, by decide⟩

/-- Claim C9 (amended): when the configured projects directory normalises to a
single path segment (no `/` in it), the two readers key the same stored file
identically: for a local glob entry and the repository file stored at the
local record's path, both mappings use the key
`{first relative segment}/{basename}`. -/
theorem c9_keys_agree (dirName : String) (s0 : String) (more : List String)
    (cont : String) (f : RepoFile)
    (hpd : '/' ∉ (stripDotSlash dirName).toList)
    (hpdb : '\\' ∉ (stripDotSlash dirName).toList)
    (hsegs : ∀ s ∈ s0 :: more, '/' ∉ s.toList ∧ '\\' ∉ s.toList)
    (hpath : f.path = localFilepath dirName (s0 :: more))
    (hname : f.name = (s0 :: more).getLast?.getD "") :
    ∃ k rc rr,
      GetLocalFiles dirName ⟨true, [⟨s0 :: more, false, cont⟩]⟩ = [(k, rc)]
      ∧ GetRemoteFiles dirName [f] = Except.ok [(k, rr)] := by
  have hlf : localFilepath dirName (s0 :: more) =
      stripDotSlash dirName ++ "/" ++ joinSegs (s0 :: more) :=
    localFilepath_of_no_backslash dirName (s0 :: more) hpdb
      (fun s hs => (hsegs s hs).2)
  have hpath' : f.path = stripDotSlash dirName ++ "/" ++ joinSegs (s0 :: more) :=
    hpath.trans hlf
  have hstart : pyStartswith f.path (stripDotSlash dirName) = true := by
    apply pyStartswith_of_toList
    refine ⟨'/' :: (joinSegs (s0 :: more)).toList, ?_⟩
    rw [hpath', toList_slash_append]
  have hsplit : (pySplit '/' f.path)[1]? = some s0 := by
    rw [hpath']
    exact pySplit_second _ _ _ hpd (hsegs s0 (List.mem_cons_self _ _)).1
  refine ⟨s0 ++ "/" ++ (s0 :: more).getLast?.getD "",
    ⟨s0, (s0 :: more).getLast?.getD "", localFilepath dirName (s0 :: more), cont⟩,
    ⟨s0, f.name, f.path, f.content, f.sha⟩, ?_, ?_⟩
  · rw [GetLocalFiles_singleton]
    simp
  · rw [GetRemoteFiles_singleton_of dirName f s0 hstart hsplit, hname]

/-- Witness for C9 (amended) at the default directory `./projects`. -/
theorem c9_keys_agree_witness :
    ∃ k rc rr,
      GetLocalFiles "./projects" ⟨true, [⟨["myapp", "compose.yaml"], false, "X"⟩]⟩
        = [(k, rc)]
      ∧ GetRemoteFiles "./projects"
          [⟨"projects/myapp/compose.yaml", "compose.yaml", "X", "r1"⟩]
        = Except.ok [(k, rr)] :=
  c9_keys_agree "./projects" "myapp" ["compose.yaml"] "X"
    ⟨"projects/myapp/compose.yaml", "compose.yaml", "X", "r1"⟩
    (by decide) (by decide) (by decide) (by decide) (by decide)

/-! ### Lemmas about `remoteLoop` for the snapshot-filter claim -/

theorem mem_keys_dinsert {α : Type} (k k' : String) (v : α) (l : List (String × α)) :
    k' ∈ keys (dinsert k v l) ↔ k' = k ∨ k' ∈ keys l := by
  induction l with
  | nil => simp [dinsert, keys]
  | cons hd tl ih =>
    obtain ⟨k'', v''⟩ := hd
    by_cases h : k'' = k
    · have hins : dinsert k v ((k'', v'') :: tl) = (k, v) :: tl := by
        simp [dinsert, h]
      rw [hins, keys_cons, keys_cons, List.mem_cons, List.mem_cons, h]
      tauto
    · have hins : dinsert k v ((k'', v'') :: tl) = (k'', v'') :: dinsert k v tl := by
        simp [dinsert, h]
      rw [hins, keys_cons, keys_cons, List.mem_cons, List.mem_cons, ih]
      tauto

theorem mem_dinsert {α : Type} {p : String × α} {k : String} {v : α}
    {l : List (String × α)} (h : p ∈ dinsert k v l) : p = (k, v) ∨ p ∈ l := by
  induction l with
  | nil => simpa [dinsert] using h
  | cons hd tl ih =>
    obtain ⟨k'', v''⟩ := hd
    by_cases hk : k'' = k
    · subst hk
      rw [dinsert, if_pos rfl] at h
      rcases List.mem_cons.mp h with h1 | h1
      · exact Or.inl h1
      · exact Or.inr (List.mem_cons_of_mem _ h1)
    · rw [dinsert, if_neg hk] at h
      rcases List.mem_cons.mp h with h1 | h1
      · exact Or.inr (h1 ▸ List.mem_cons_self _ _)
      · rcases ih h1 with h2 | h2
        · exact Or.inl h2
        · exact Or.inr (List.mem_cons_of_mem _ h2)

theorem remoteLoop_cons (pd : String) (f : RepoFile) (rest : List RepoFile)
    (acc : List (String × RemoteFile)) :
    remoteLoop pd (f :: rest) acc =
      if !(pyStartswith f.path pd) then remoteLoop pd rest acc
      else
        match (pySplit '/' f.path)[1]? with
        | none => .error ("IndexError: " ++ f.path)
        | some project =>
          remoteLoop pd rest
            (dinsert (project ++ "/" ++ f.name)
              ⟨project, f.name, f.path, f.content, f.sha⟩ acc) := rfl

theorem remoteLoop_cons_skip (pd : String) (f : RepoFile) (rest : List RepoFile)
    (acc : List (String × RemoteFile)) (hs : pyStartswith f.path pd = false) :
    remoteLoop pd (f :: rest) acc = remoteLoop pd rest acc := by
  simp [remoteLoop_cons, hs]

theorem remoteLoop_cons_err (pd : String) (f : RepoFile) (rest : List RepoFile)
    (acc : List (String × RemoteFile)) (hs : pyStartswith f.path pd = true)
    (hsp : (pySplit '/' f.path)[1]? = none) :
    remoteLoop pd (f :: rest) acc = .error ("IndexError: " ++ f.path) := by
  simp [remoteLoop_cons, hs, hsp]

theorem remoteLoop_cons_ins (pd : String) (f : RepoFile) (rest : List RepoFile)
    (acc : List (String × RemoteFile)) (proj : String)
    (hs : pyStartswith f.path pd = true)
    (hsp : (pySplit '/' f.path)[1]? = some proj) :
    remoteLoop pd (f :: rest) acc =
      remoteLoop pd rest
        (dinsert (proj ++ "/" ++ f.name) ⟨proj, f.name, f.path, f.content, f.sha⟩ acc) := by
  simp [remoteLoop_cons, hs, hsp]

theorem remoteLoop_filter (pd : String) :
    ∀ (files : List RepoFile) (acc : List (String × RemoteFile)),
      remoteLoop pd files acc =
        remoteLoop pd (files.filter (fun f => pyStartswith f.path pd)) acc := by
  intro files
  induction files with
  | nil => intro acc; rfl
  | cons f rest ih =>
    intro acc
    cases hs : pyStartswith f.path pd with
    | false =>
      rw [List.filter_cons_of_neg (by simp [hs]), remoteLoop_cons_skip pd f rest acc hs]
      exact ih acc
    | true =>
      rw [List.filter_cons_of_pos (by simp [hs])]
      cases hsp : (pySplit '/' f.path)[1]? with
      | none =>
        rw [remoteLoop_cons_err pd f rest acc hs hsp,
          remoteLoop_cons_err pd f _ acc hs hsp]
      | some proj =>
        rw [remoteLoop_cons_ins pd f rest acc proj hs hsp,
          remoteLoop_cons_ins pd f _ acc proj hs hsp]
        exact ih _

theorem remoteLoop_ok_iff (pd : String) :
    ∀ (files : List RepoFile) (acc : List (String × RemoteFile)),
      (∃ m, remoteLoop pd files acc = Except.ok m) ↔
        ∀ f ∈ files, pyStartswith f.path pd = true →
          ((pySplit '/' f.path)[1]?).isSome := by
  intro files
  induction files with
  | nil =>
    intro acc
    constructor
    · intro _ f hf
      simp at hf
    · intro _
      exact ⟨acc, rfl⟩
  | cons g rest ih =>
    intro acc
    cases hs : pyStartswith g.path pd with
    | false =>
      rw [remoteLoop_cons_skip pd g rest acc hs]
      constructor
      · intro hm f hf hstart
        rcases List.mem_cons.mp hf with h1 | h1
        · subst h1
          rw [hs] at hstart
          exact Bool.noConfusion hstart
        · exact (ih acc).mp hm f h1 hstart
      · intro h
        exact (ih acc).mpr (fun f hf hst => h f (List.mem_cons_of_mem _ hf) hst)
    | true =>
      cases hsp : (pySplit '/' g.path)[1]? with
      | none =>
        constructor
        · intro hm
          obtain ⟨m, hm⟩ := hm
          rw [remoteLoop_cons_err pd g rest acc hs hsp] at hm
          exact Except.noConfusion hm
        · intro h
          have := h g (List.mem_cons_self _ _) hs
          rw [hsp] at this
          simp at this
      | some proj =>
        rw [remoteLoop_cons_ins pd g rest acc proj hs hsp]
        constructor
        · intro hm f hf hstart
          rcases List.mem_cons.mp hf with h1 | h1
          · subst h1
            rw [hsp]
            rfl
          · exact (ih _).mp hm f h1 hstart
        · intro h
          exact (ih _).mpr (fun f hf hst => h f (List.mem_cons_of_mem _ hf) hst)

theorem remoteLoop_keys_mono (pd : String) :
    ∀ {files : List RepoFile} {acc m : List (String × RemoteFile)},
      remoteLoop pd files acc = Except.ok m → ∀ k ∈ keys acc, k ∈ keys m := by
  intro files
  induction files with
  | nil =>
    intro acc m hm k hk
    injection hm with h
    exact h ▸ hk
  | cons g rest ih =>
    intro acc m hm k hk
    cases hs : pyStartswith g.path pd with
    | false =>
      rw [remoteLoop_cons_skip pd g rest acc hs] at hm
      exact ih hm k hk
    | true =>
      cases hsp : (pySplit '/' g.path)[1]? with
      | none =>
        rw [remoteLoop_cons_err pd g rest acc hs hsp] at hm
        exact Except.noConfusion hm
      | some proj =>
        rw [remoteLoop_cons_ins pd g rest acc proj hs hsp] at hm
        exact ih hm k ((mem_keys_dinsert _ _ _ _).mpr (Or.inr hk))

theorem remoteLoop_ok_keys (pd : String) :
    ∀ {files : List RepoFile} {acc m : List (String × RemoteFile)},
      remoteLoop pd files acc = Except.ok m →
      ∀ f ∈ files, pyStartswith f.path pd = true →
        ∃ proj, (pySplit '/' f.path)[1]? = some proj
          ∧ (proj ++ "/" ++ f.name) ∈ keys m := by
  intro files
  induction files with
  | nil =>
    intro acc m _ f hf
    simp at hf
  | cons g rest ih =>
    intro acc m hm f hf hstart
    cases hs : pyStartswith g.path pd with
    | false =>
      rw [remoteLoop_cons_skip pd g rest acc hs] at hm
      rcases List.mem_cons.mp hf with h1 | h1
      · subst h1
        rw [hs] at hstart
        exact Bool.noConfusion hstart
      · exact ih hm f h1 hstart
    | true =>
      cases hsp : (pySplit '/' g.path)[1]? with
      | none =>
        rw [remoteLoop_cons_err pd g rest acc hs hsp] at hm
        exact Except.noConfusion hm
      | some proj =>
        rw [remoteLoop_cons_ins pd g rest acc proj hs hsp] at hm
        rcases List.mem_cons.mp hf with h1 | h1
        · subst h1
          exact ⟨proj, hsp,
            remoteLoop_keys_mono pd hm _ ((mem_keys_dinsert _ _ _ _).mpr (Or.inl rfl))⟩
        · exact ih hm f h1 hstart

theorem remoteLoop_ok_mem (pd : String) :
    ∀ {files : List RepoFile} {acc m : List (String × RemoteFile)},
      remoteLoop pd files acc = Except.ok m →
      ∀ p ∈ m, p ∈ acc ∨ ∃ f ∈ files, pyStartswith f.path pd = true
        ∧ ∃ proj, (pySplit '/' f.path)[1]? = some proj
          ∧ p = (proj ++ "/" ++ f.name, ⟨proj, f.name, f.path, f.content, f.sha⟩) := by
  intro files
  induction files with
  | nil =>
    intro acc m hm p hp
    injection hm with h
    exact Or.inl (h ▸ hp)
  | cons g rest ih =>
    intro acc m hm p hp
    cases hs : pyStartswith g.path pd with
    | false =>
      rw [remoteLoop_cons_skip pd g rest acc hs] at hm
      rcases ih hm p hp with h1 | ⟨f, hf, h2⟩
      · exact Or.inl h1
      · exact Or.inr ⟨f, List.mem_cons_of_mem _ hf, h2⟩
    | true =>
      cases hsp : (pySplit '/' g.path)[1]? with
      | none =>
        rw [remoteLoop_cons_err pd g rest acc hs hsp] at hm
        exact Except.noConfusion hm
      | some proj =>
        rw [remoteLoop_cons_ins pd g rest acc proj hs hsp] at hm
        rcases ih hm p hp with h1 | ⟨f, hf, h2⟩
        · rcases mem_dinsert h1 with h2 | h2
          · exact Or.inr ⟨g, List.mem_cons_self _ _, hs, proj, hsp, h2⟩
          · exact Or.inl h2
        · exact Or.inr ⟨f, List.mem_cons_of_mem _ hf, h2⟩

/-- Counterexample for C10 as stated: the top-level repository file
`projects.md` string-prefix-matches the directory name `projects` but has no
second `/`-separated path segment; instead of being included in the snapshot
mapping, the read raises an uncaught `IndexError` (no mapping is produced). -/
theorem c10_cex_top_level_file_crashes :
    GetRemoteFiles "./projects" [⟨"projects.md", "projects.md", "c", "s"⟩]
      = Except.error "IndexError: projects.md"
    ∧ ∀ m, GetRemoteFiles "./projects" [⟨"projects.md", "projects.md", "c", "s"⟩]
        ≠ Except.ok m := by
  refine ⟨rfl, ?_⟩
  intro m hm
  rw [show GetRemoteFiles "./projects" [⟨"projects.md", "projects.md", "c", "s"⟩]
      = Except.error "IndexError: projects.md" from rfl] at hm
  exact Except.noConfusion hm

/-- Claim C10 (amended): `GetRemoteFiles` keeps exactly the files whose path
string starts with the configured projects directory (after stripping a
leading `./`) — a plain string-prefix test, so sibling directories like
`projectsX/...` are included too; a read succeeds iff every prefix-matching
path has a second `/`-separated segment (otherwise an uncaught `IndexError`
aborts it); and in a successful read every prefix-matching file is keyed with
the second segment of its path as the project component, and every mapping
entry arises that way. -/
theorem c10_prefix_filter_and_second_segment (dirName : String) (files : List RepoFile) :
    GetRemoteFiles dirName files
      = GetRemoteFiles dirName
          (files.filter (fun f => pyStartswith f.path (stripDotSlash dirName)))
    ∧ ((∃ m, GetRemoteFiles dirName files = Except.ok m) ↔
        ∀ f ∈ files, pyStartswith f.path (stripDotSlash dirName) = true →
          ((pySplit '/' f.path)[1]?).isSome)
    ∧ ∀ m, GetRemoteFiles dirName files = Except.ok m →
        (∀ f ∈ files, pyStartswith f.path (stripDotSlash dirName) = true →
          ∃ proj, (pySplit '/' f.path)[1]? = some proj
            ∧ (proj ++ "/" ++ f.name) ∈ keys m)
        ∧ ∀ p ∈ m, ∃ f ∈ files, pyStartswith f.path (stripDotSlash dirName) = true
            ∧ ∃ proj, (pySplit '/' f.path)[1]? = some proj
              ∧ p = (proj ++ "/" ++ f.name, ⟨proj, f.name, f.path, f.content, f.sha⟩) := by
  refine ⟨remoteLoop_filter _ files [], remoteLoop_ok_iff _ files [], ?_⟩
  intro m hm
  refine ⟨fun f hf hstart => remoteLoop_ok_keys _ hm f hf hstart, ?_⟩
  intro p hp
  rcases remoteLoop_ok_mem _ hm p hp with h | h
  · simp at h
  · exact h

/-- Witness for C10 (amended) on a listing with a sibling-directory file
(`projectsX/...`, included) and a non-matching top-level file (skipped). -/
theorem c10_prefix_filter_and_second_segment_witness :
    GetRemoteFiles "./projects"
      [⟨"projectsX/app/compose.yaml", "compose.yaml", "c", "s"⟩,
       ⟨"README.md", "README.md", "r", "t"⟩]
      = GetRemoteFiles "./projects"
          ([⟨"projectsX/app/compose.yaml", "compose.yaml", "c", "s"⟩,
            ⟨"README.md", "README.md", "r", "t"⟩].filter
            (fun f => pyStartswith f.path (stripDotSlash "./projects")))
    ∧ ((∃ m, GetRemoteFiles "./projects"
          [⟨"projectsX/app/compose.yaml", "compose.yaml", "c", "s"⟩,
           ⟨"README.md", "README.md", "r", "t"⟩] = Except.ok m) ↔
        ∀ f ∈ [(⟨"projectsX/app/compose.yaml", "compose.yaml", "c", "s"⟩ : RepoFile),
           ⟨"README.md", "README.md", "r", "t"⟩],
          pyStartswith f.path (stripDotSlash "./projects") = true →
          ((pySplit '/' f.path)[1]?).isSome)
    ∧ ∀ m, GetRemoteFiles "./projects"
          [⟨"projectsX/app/compose.yaml", "compose.yaml", "c", "s"⟩,
           ⟨"README.md", "README.md", "r", "t"⟩] = Except.ok m →
        (∀ f ∈ [(⟨"projectsX/app/compose.yaml", "compose.yaml", "c", "s"⟩ : RepoFile),
            ⟨"README.md", "README.md", "r", "t"⟩],
          pyStartswith f.path (stripDotSlash "./projects") = true →
          ∃ proj, (pySplit '/' f.path)[1]? = some proj
            ∧ (proj ++ "/" ++ f.name) ∈ keys m)
        ∧ ∀ p ∈ m, ∃ f ∈ [(⟨"projectsX/app/compose.yaml", "compose.yaml", "c", "s"⟩ : RepoFile),
              ⟨"README.md", "README.md", "r", "t"⟩],
            pyStartswith f.path (stripDotSlash "./projects") = true
            ∧ ∃ proj, (pySplit '/' f.path)[1]? = some proj
              ∧ p = (proj ++ "/" ++ f.name, ⟨proj, f.name, f.path, f.content, f.sha⟩) :=
  c10_prefix_filter_and_second_segment "./projects"
    [⟨"projectsX/app/compose.yaml", "compose.yaml", "c", "s"⟩,
     ⟨"README.md", "README.md", "r", "t"⟩]

end Salvage
